import Mathlib

/-!
# Verification of the geohash repository

Shallow embedding of the three source files of the repository
(`sonnet_geo.py`, `codex_geo.py`, `geohash.py`) and proofs about the
claims of the specification.

Modelling conventions:
* Python floats are modelled by `ℚ` (the bisection arithmetic of the
  algorithm is exact halving, so rational arithmetic is the faithful
  idealisation); Python ints by `ℤ`/`ℕ`.
* `raise` is modelled by `Except`: each variant raises its own error type
  (`sonnet_geo.py` has a custom exception hierarchy, `codex_geo.py` raises
  `ValueError` with a message, `geohash.py` never raises during decode).
* Python slicing `l[::2]` / `l[1::2]` is modelled by `evens` / `odds`.
* Python `%` on floats (sign of the divisor) is modelled by `pymod`.
-/

mutual

/-- `l[::2]` : the elements of `l` at even positions. -/
def evens {α : Type} : List α → List α
  | [] => []
  | a :: rest => a :: odds rest

/-- `l[1::2]` : the elements of `l` at odd positions. -/
def odds {α : Type} : List α → List α
  | [] => []
  | _ :: rest => evens rest

end

/-- Python `x % m` on floats: the remainder with the sign of the divisor,
`x - m * floor (x / m)`. -/
def pymod (x m : ℚ) : ℚ := x - m * (⌊x / m⌋ : ℚ)

/-- Index of a character in a list, i.e. the lookup in a dict built as
`{char: index for index, char in enumerate(alphabet)}`. -/
def indexOfChar (c : Char) : List Char → ℕ → Option ℕ
  | [], _ => none
  | a :: rest, i => if a = c then some i else indexOfChar c rest (i + 1)

namespace Sonnet

/-! Embedding of `src/sonnet_geo.py`. -/

def BASE32_ALPHABET : List Char :=
  ['0','1','2','3','4','5','6','7','8','9','b','c','d','e','f','g','h',
   'j','k','m','n','p','q','r','s','t','u','v','w','x','y','z']

/-- `BASE32_DECODE_MAP = {char: index for index, char in enumerate(BASE32_ALPHABET)}`,
with the failing lookup (`KeyError`) modelled by `none`. -/
def BASE32_DECODE_MAP (c : Char) : Option ℕ := indexOfChar c BASE32_ALPHABET 0

def BITS_PER_CHAR : ℕ := 5

def LON_RANGE : ℚ × ℚ := (-180, 180)
def LAT_RANGE : ℚ × ℚ := (-90, 90)
def LON_SPAN : ℚ := 360

/-- The exception hierarchy of `sonnet_geo.py` (plus `ValueError`, raised by
`_bits_to_geohash`). -/
inductive Err where
  | invalidGeohash (msg : String)
  | invalidCoordinate (msg : String)
  | invalidPrecision (msg : String)
  | valueError (msg : String)
deriving DecidableEq

structure DecodedCell where
  lon : ℚ
  lat : ℚ
  lon_err : ℚ
  lat_err : ℚ
  geohash : String := ""
deriving DecidableEq

/-- The accumulator loop of `_bits_to_geohash`: shift bits into `accumulator`
and emit `BASE32_ALPHABET[accumulator]` every 5 bits. -/
def bits_to_geohash_aux : List Bool → ℕ → ℕ → List Char
  | [], _, _ => []
  | b :: rest, accumulator, count =>
    let acc2 := accumulator * 2 + (if b then 1 else 0)
    let cnt2 := count + 1
    if cnt2 = BITS_PER_CHAR then
      BASE32_ALPHABET.getD acc2 ' ' :: bits_to_geohash_aux rest 0 0
    else
      bits_to_geohash_aux rest acc2 cnt2

def bits_to_geohash (bits : List Bool) : Except Err String :=
  if bits.length % BITS_PER_CHAR ≠ 0 then
    .error (.valueError "Bit sequence length must be a multiple of 5")
  else
    .ok (String.mk (bits_to_geohash_aux bits 0 0))

/-- `for shift in range(BITS_PER_CHAR - 1, -1, -1): bits.append((value >> shift) & 1)` -/
def char_bits (value : ℕ) : List Bool :=
  [4, 3, 2, 1, 0].map (fun shift => (value >>> shift) % 2 == 1)

/-- `_geohash_to_bits`: raises `InvalidGeohashError` at the first character
that is not in the decode map; the error message names the character. -/
def geohash_to_bits : List Char → Except Err (List Bool)
  | [] => .ok []
  | c :: rest =>
    match BASE32_DECODE_MAP c with
    | none =>
      .error (.invalidGeohash ("Invalid geohash character " ++ String.singleton c ++
        ". Valid characters: 0123456789bcdefghjkmnpqrstuvwxyz"))
    | some value => do
      let tail ← geohash_to_bits rest
      .ok (char_bits value ++ tail)

def refine_interval : List Bool → ℚ × ℚ → ℚ × ℚ
  | [], r => r
  | b :: rest, (low, high) =>
    let mid := (low + high) / 2
    if b then refine_interval rest (mid, high) else refine_interval rest (low, mid)

def total_bits (precision : ℤ) : Except Err ℕ :=
  if precision ≤ 0 then
    .error (.invalidPrecision ("Precision must be positive, got " ++ toString precision))
  else
    .ok (precision.toNat * BITS_PER_CHAR)

def wrap_longitude (lon : ℚ) : ℚ :=
  let wrapped := pymod (lon - LON_RANGE.1) LON_SPAN + LON_RANGE.1
  if wrapped = LON_RANGE.2 then LON_RANGE.1 else wrapped

def clamp_latitude (lat : ℚ) : ℚ :=
  max LAT_RANGE.1 (min lat LAT_RANGE.2)

/-- One iteration of the bisection loop of `encode` (lines 376-383): returns
the emitted bit and the updated interval. -/
def encode_step (value low high : ℚ) : Bool × ℚ × ℚ :=
  let mid := (low + high) / 2
  if value ≥ mid then (true, mid, high) else (false, low, mid)

/-- The `for _ in range(total_bits)` loop of `encode`, alternating between
the longitude and latitude intervals starting with longitude. -/
def encode_loop (lon lat : ℚ) : ℚ × ℚ → ℚ × ℚ → Bool → ℕ → List Bool
  | _, _, _, 0 => []
  | lonI, latI, use_lon, n + 1 =>
    if use_lon then
      let s := encode_step lon lonI.1 lonI.2
      s.1 :: encode_loop lon lat (s.2.1, s.2.2) latI false n
    else
      let s := encode_step lat latI.1 latI.2
      s.1 :: encode_loop lon lat lonI (s.2.1, s.2.2) true n

def encode (lon lat : ℚ) (precision : ℤ) : Except Err String :=
  if ¬ (LAT_RANGE.1 ≤ lat ∧ lat ≤ LAT_RANGE.2) then
    .error (.invalidCoordinate ("Latitude " ++ toString lat ++ " out of range (-90.0, 90.0)"))
  else if ¬ (LON_RANGE.1 ≤ lon ∧ lon ≤ LON_RANGE.2) then
    .error (.invalidCoordinate ("Longitude " ++ toString lon ++ " out of range (-180.0, 180.0)"))
  else do
    let tb ← total_bits precision
    bits_to_geohash (encode_loop lon lat LON_RANGE LAT_RANGE true tb)

/-- `DecodedCell.from_geohash`. -/
def from_geohash (geohash : String) : Except Err DecodedCell := do
  let bits ← geohash_to_bits geohash.toList
  let lon_bits := evens bits
  let lat_bits := odds bits
  let lonI := refine_interval lon_bits LON_RANGE
  let latI := refine_interval lat_bits LAT_RANGE
  .ok { lon := (lonI.1 + lonI.2) / 2, lat := (latI.1 + latI.2) / 2,
        lon_err := (lonI.2 - lonI.1) / 2, lat_err := (latI.2 - latI.1) / 2,
        geohash := geohash }

def decode (geohash : String) : Except Err DecodedCell :=
  from_geohash geohash

def to_point (c : DecodedCell) : ℚ × ℚ := (c.lon, c.lat)

/-- `to_bbox`: `(min_lon, min_lat, max_lon, max_lat)` = (west, south, east, north). -/
def to_bbox (c : DecodedCell) : ℚ × ℚ × ℚ × ℚ :=
  (c.lon - c.lon_err, c.lat - c.lat_err, c.lon + c.lon_err, c.lat + c.lat_err)

/-- `to_polygon(closed)`. -/
def to_polygon (c : DecodedCell) (closed : Bool) : List (ℚ × ℚ) :=
  let west := c.lon - c.lon_err
  let east := c.lon + c.lon_err
  let south := c.lat - c.lat_err
  let north := c.lat + c.lat_err
  let corners := [(west, south), (east, south), (east, north), (west, north)]
  if closed then corners ++ [(west, south)] else corners

/-- The inner `for lon_delta in (-1, 0, 1)` loop of `neighbors`. -/
def neighbor_row (lon cand_lat lon_step : ℚ) (precision : ℤ) :
    List ℤ → Except Err (List String)
  | [] => .ok []
  | d :: rest => do
    let cand_lon := wrap_longitude (lon + (d : ℚ) * lon_step)
    let h ← encode cand_lon cand_lat precision
    let more ← neighbor_row lon cand_lat lon_step precision rest
    .ok (h :: more)

/-- The outer `for lat_delta in (1, 0, -1)` loop of `neighbors`. -/
def neighbor_grid (cell : DecodedCell) (lon_step lat_step : ℚ) (precision : ℤ) :
    List ℤ → Except Err (List String)
  | [] => .ok []
  | d :: rest => do
    let cand_lat := clamp_latitude (cell.lat + (d : ℚ) * lat_step)
    let row ← neighbor_row cell.lon cand_lat lon_step precision [-1, 0, 1]
    let more ← neighbor_grid cell lon_step lat_step precision rest
    .ok (row ++ more)

def neighbors (geohash : String) : Except Err (List String) := do
  let cell ← decode geohash
  neighbor_grid cell (cell.lon_err * 2) (cell.lat_err * 2) (geohash.length : ℤ) [1, 0, -1]

def parent (geohash : String) : String :=
  if geohash.length > 1 then String.mk geohash.toList.dropLast else geohash

def bbox (geohash : String) : Except Err (ℚ × ℚ × ℚ × ℚ) :=
  (decode geohash).map to_bbox

end Sonnet

namespace Codex

/-! Embedding of `src/codex_geo.py`.  All exceptions there are `ValueError`
with a message, modelled by `Except String`. -/

def BASE32_ALPHABET : List Char :=
  ['0','1','2','3','4','5','6','7','8','9','b','c','d','e','f','g','h',
   'j','k','m','n','p','q','r','s','t','u','v','w','x','y','z']

def BASE32_DECODE_MAP (c : Char) : Option ℕ := indexOfChar c BASE32_ALPHABET 0

structure DecodedCell where
  lon : ℚ
  lat : ℚ
  lon_err : ℚ
  lat_err : ℚ
deriving DecidableEq

def to_point (c : DecodedCell) : ℚ × ℚ := (c.lon, c.lat)

def to_pointerr (c : DecodedCell) : ℚ × ℚ × ℚ × ℚ := (c.lon, c.lat, c.lon_err, c.lat_err)

/-- `to_polygon` of `codex_geo.py` (note the order: SW, SE, NW, NE; and
there is no `closed` parameter). -/
def to_polygon (c : DecodedCell) : List (ℚ × ℚ) :=
  let west := c.lon - c.lon_err
  let east := c.lon + c.lon_err
  let south := c.lat - c.lat_err
  let north := c.lat + c.lat_err
  [(west, south), (east, south), (west, north), (east, north)]

def bits_to_geohash_aux : List Bool → ℕ → ℕ → List Char
  | [], _, _ => []
  | b :: rest, accumulator, count =>
    let acc2 := accumulator * 2 + (if b then 1 else 0)
    let cnt2 := count + 1
    if cnt2 = 5 then
      BASE32_ALPHABET.getD acc2 ' ' :: bits_to_geohash_aux rest 0 0
    else
      bits_to_geohash_aux rest acc2 cnt2

def bits_to_geohash (bits : List Bool) : Except String String :=
  if bits.length % 5 ≠ 0 then
    .error "Bit sequence length must be a multiple of 5"
  else
    .ok (String.mk (bits_to_geohash_aux bits 0 0))

def char_bits (value : ℕ) : List Bool :=
  [4, 3, 2, 1, 0].map (fun shift => (value >>> shift) % 2 == 1)

def geohash_to_bits : List Char → Except String (List Bool)
  | [] => .ok []
  | c :: rest =>
    match BASE32_DECODE_MAP c with
    | none => .error "Invalid geohash character. Use 0-9 and b-h, j, k, m, n, p-z."
    | some value => do
      let tail ← geohash_to_bits rest
      .ok (char_bits value ++ tail)

def refine_interval : List Bool → ℚ × ℚ → ℚ × ℚ
  | [], r => r
  | b :: rest, (low, high) =>
    let mid := (low + high) / 2
    if b then refine_interval rest (mid, high) else refine_interval rest (low, mid)

def total_bits (precision : ℤ) : Except String ℕ :=
  if precision ≤ 0 then .error "Precision must be a positive integer"
  else .ok (precision.toNat * 5)

def wrap_longitude (lon : ℚ) : ℚ :=
  let wrapped := pymod (lon + 180) 360 - 180
  if wrapped = 180 then -180 else wrapped

def encode_step (value low high : ℚ) : Bool × ℚ × ℚ :=
  let mid := (low + high) / 2
  if value ≥ mid then (true, mid, high) else (false, low, mid)

def encode_loop (lon lat : ℚ) : ℚ × ℚ → ℚ × ℚ → Bool → ℕ → List Bool
  | _, _, _, 0 => []
  | lonI, latI, use_lon, n + 1 =>
    if use_lon then
      let s := encode_step lon lonI.1 lonI.2
      s.1 :: encode_loop lon lat (s.2.1, s.2.2) latI false n
    else
      let s := encode_step lat latI.1 latI.2
      s.1 :: encode_loop lon lat lonI (s.2.1, s.2.2) true n

/-- `encode` of `codex_geo.py`: note that, unlike `sonnet_geo.py`, it
performs no validation of the coordinates, only of the precision. -/
def encode (lon lat : ℚ) (precision : ℤ) : Except String String := do
  let tb ← total_bits precision
  bits_to_geohash (encode_loop lon lat (-180, 180) (-90, 90) true tb)

/-- The union return type of `decode(geohash, geotype)`. -/
inductive GeoResult where
  | point (lon lat : ℚ)
  | pointerr (lon lat lon_err lat_err : ℚ)
  | polygon (corners : List (ℚ × ℚ))
deriving DecidableEq

def decode (geohash : String) (geotype : String) : Except String GeoResult := do
  let bits ← geohash_to_bits geohash.toList
  let lon_bits := evens bits
  let lat_bits := odds bits
  let lonI := refine_interval lon_bits (-180, 180)
  let latI := refine_interval lat_bits (-90, 90)
  let cell : DecodedCell := ⟨(lonI.1 + lonI.2) / 2, (latI.1 + latI.2) / 2,
    (lonI.2 - lonI.1) / 2, (latI.2 - latI.1) / 2⟩
  if geotype = "point" then .ok (.point cell.lon cell.lat)
  else if geotype = "pointerr" then .ok (.pointerr cell.lon cell.lat cell.lon_err cell.lat_err)
  else if geotype = "polygon" then .ok (.polygon (to_polygon cell))
  else .error "geotype must be point, pointerr, or polygon"

/-- The inner `for lat_delta in (1, 0, -1)` loop of `neighbors` (the
latitude is clamped inline with `max(min(..., 90.0), -90.0)`). -/
def neighbor_col (lat cand_lon lat_step : ℚ) (precision : ℤ) :
    List ℤ → Except String (List String)
  | [] => .ok []
  | d :: rest => do
    let cand_lat := max (min (lat + (d : ℚ) * lat_step) 90) (-90)
    let h ← encode cand_lon cand_lat precision
    let more ← neighbor_col lat cand_lon lat_step precision rest
    .ok (h :: more)

/-- The outer `for lon_delta in (-1, 0, 1)` loop of `neighbors`. -/
def neighbor_grid (lon lat lon_step lat_step : ℚ) (precision : ℤ) :
    List ℤ → Except String (List String)
  | [] => .ok []
  | d :: rest => do
    let cand_lon := wrap_longitude (lon + (d : ℚ) * lon_step)
    let col ← neighbor_col lat cand_lon lat_step precision [1, 0, -1]
    let more ← neighbor_grid lon lat lon_step lat_step precision rest
    .ok (col ++ more)

/-- `neighbors` of `codex_geo.py`: iterates longitude in the OUTER loop, so
its output is column-major, unlike `sonnet_geo.py`. -/
def neighbors (geohash : String) : Except String (List String) := do
  let r ← decode geohash "pointerr"
  match r with
  | .pointerr lon lat lon_err lat_err =>
    neighbor_grid lon lat (lon_err * 2) (lat_err * 2) (geohash.length : ℤ) [-1, 0, 1]
  | _ => .error "cannot unpack decode result"

end Codex

namespace GeohashPy

/-! Embedding of `src/geohash.py`.  That file works on bit STRINGS (characters
`'0'`/`'1'`), and `get_geobits` returns its error message as an ordinary
string value instead of raising, so nothing here is in `Except`. -/

def base32 : List Char :=
  ['0','1','2','3','4','5','6','7','8','9','b','c','d','e','f','g','h',
   'j','k','m','n','p','q','r','s','t','u','v','w','x','y','z']

/-- The literal `dict32` of the source maps each alphabet character to its
index. -/
def dict32 (c : Char) : Option ℕ := indexOfChar c base32 0

/-- The bisection loop of `get_bits`: note the STRICT comparison
`degrees > mid` (a tie goes to the lower half, emitting '0'). -/
def get_bits_loop (degrees : ℚ) : ℚ × ℚ → ℕ → List Char
  | _, 0 => []
  | (low, high), n + 1 =>
    let mid := (low + high) / 2
    if degrees > mid then '1' :: get_bits_loop degrees (mid, high) n
    else '0' :: get_bits_loop degrees (low, mid) n

/-- `get_bits(degrees, precision, range_ends)`; the iteration count is
`sum(divmod(precision * 5, 2))` with Python floor-division semantics. -/
def get_bits (degrees : ℚ) (precision : ℤ) (range_ends : ℤ) : List Char :=
  let iterations : ℤ := (precision * 5).fdiv 2 + (precision * 5).fmod 2
  get_bits_loop degrees (-(range_ends : ℚ), (range_ends : ℚ)) iterations.toNat

/-- `''.join(''.join(x) for x in zip_longest(lon_bits, lat_bits, fillvalue=''))`. -/
def zip_longest_join : List Char → List Char → List Char
  | [], ys => ys
  | x :: xs, [] => x :: xs
  | x :: xs, y :: ys => x :: y :: zip_longest_join xs ys

/-- `int(s, 2)` on a string of `'0'`/`'1'` characters. -/
def bits_val (l : List Char) : ℕ :=
  l.foldl (fun acc c => acc * 2 + (if c = '1' then 1 else 0)) 0

/-- `bin(v)[2:].zfill(5)` for `v < 32`. -/
def nat_to_bin5 (v : ℕ) : List Char :=
  [4, 3, 2, 1, 0].map (fun shift => if (v >>> shift) % 2 = 1 then '1' else '0')

def encode (lon lat : ℚ) (precision : ℤ) : String :=
  let lon_bits := get_bits lon precision 180
  let lat_bits := get_bits lat precision 90
  let geobits := zip_longest_join lon_bits lat_bits
  String.mk ((List.range precision.toNat).map
    (fun i => base32.getD (bits_val ((geobits.drop (i * 5)).take 5)) ' '))

/-- The loop of `get_geobits`: on a `KeyError` the function RETURNS the
error message string (it does not raise), discarding the bits built so far. -/
def get_geobits_aux (acc : List Char) : List Char → List Char
  | [] => acc
  | c :: rest =>
    match dict32 c with
    | some v => get_geobits_aux (acc ++ nat_to_bin5 v) rest
    | none => "Invalid geohash character.  Use 0-9, b-h, j, k, m, n, p-z.".toList

def get_geobits (geohash : String) : List Char :=
  get_geobits_aux [] geohash.toList

def get_degrees_loop : List Char → ℚ × ℚ → ℚ × ℚ
  | [], r => r
  | c :: rest, (low, high) =>
    let mid := (low + high) / 2
    if c = '0' then get_degrees_loop rest (low, mid)
    else get_degrees_loop rest (mid, high)

/-- `get_degrees(bits, range_ends)` returns `(degrees, precision)`. -/
def get_degrees (bits : List Char) (range_ends : ℤ) : ℚ × ℚ :=
  let r := get_degrees_loop bits (-(range_ends : ℚ), (range_ends : ℚ))
  let degrees := (r.1 + r.2) / 2
  (degrees, |degrees - r.1|)

/-- The union return type of `decode(geohash, geotype)`; the `pointerr`
variant of this file returns `[lat, lon, lat_err, lon_err]` in that order. -/
inductive GeoResult where
  | point (lon lat : ℚ)
  | pointerr (lat lon lat_err lon_err : ℚ)
  | polygon (corners : List (ℚ × ℚ))
deriving DecidableEq

/-- `decode` of `geohash.py`.  It never raises: even when `get_geobits`
produced an error-message string, that string is sliced and fed through
`get_degrees` as if it were bits. -/
def decode (geohash : String) (geotype : String) : GeoResult :=
  let geobits := get_geobits geohash
  let lon_bits := evens geobits
  let lat_bits := odds geobits
  let lonr := get_degrees lon_bits 180
  let latr := get_degrees lat_bits 90
  if geotype = "pointerr" then .pointerr latr.1 lonr.1 latr.2 lonr.2
  else if geotype = "polygon" then
    .polygon [(lonr.1 - lonr.2, latr.1 - latr.2), (lonr.1 + lonr.2, latr.1 - latr.2),
              (lonr.1 - lonr.2, latr.1 + latr.2), (lonr.1 + lonr.2, latr.1 + latr.2)]
  else .point lonr.1 latr.1

end GeohashPy

/-! ## Proof-side helper definitions -/

/-- Per-axis bisection (the `encode_axis` of spec section 4.1): what the
interleaved loop of `encode` does to a single axis. -/
def axis_encode (value : ℚ) : ℚ × ℚ → ℕ → List Bool
  | _, 0 => []
  | (low, high), n + 1 =>
    let s := Sonnet.encode_step value low high
    s.1 :: axis_encode value (s.2.1, s.2.2) n

/-- A geohash string is valid when every character is in the base-32 decode map. -/
def ValidGeohash (g : String) : Prop :=
  ∀ c ∈ g.toList, (Sonnet.BASE32_DECODE_MAP c).isSome

instance (g : String) : Decidable (ValidGeohash g) := by
  unfold ValidGeohash; infer_instance

/-- The value of five bits, MSB first (the accumulator of `_bits_to_geohash`). -/
def val5 (l : List Bool) : ℕ :=
  l.foldl (fun acc b => acc * 2 + (if b then 1 else 0)) 0

/-- The bit stream of a list of valid geohash characters (what
`_geohash_to_bits` returns on the non-error path). -/
def bits_of : List Char → List Bool
  | [] => []
  | c :: rest => Sonnet.char_bits ((Sonnet.BASE32_DECODE_MAP c).getD 0) ++ bits_of rest

/-- The cell that `sonnet_geo.decode` produces on a valid geohash. -/
def cell_of (g : String) : Sonnet.DecodedCell :=
  let bits := bits_of g.toList
  let lonI := Sonnet.refine_interval (evens bits) Sonnet.LON_RANGE
  let latI := Sonnet.refine_interval (odds bits) Sonnet.LAT_RANGE
  ⟨(lonI.1 + lonI.2) / 2, (latI.1 + latI.2) / 2,
   (lonI.2 - lonI.1) / 2, (latI.2 - latI.1) / 2, g⟩

/-- Modelled from the spec: section 4.4 fixes the neighbor output order as
row-major from north to south, west to east, `[NW, N, NE, W, Center, E, SW,
S, SE]`, each candidate longitude wrapped and latitude clamped, re-encoded
at the precision of the input.  This is the refinement target that
`Sonnet.neighbors` is compared against. -/
def row_major_neighbor_list (geohash : String) : Except Sonnet.Err (List String) := do
  let cell ← Sonnet.decode geohash
  let p : ℤ := (geohash.length : ℤ)
  let lon_step := cell.lon_err * 2
  let lat_step := cell.lat_err * 2
  let enc := fun (dlon dlat : ℚ) =>
    Sonnet.encode (Sonnet.wrap_longitude (cell.lon + dlon * lon_step))
      (Sonnet.clamp_latitude (cell.lat + dlat * lat_step)) p
  let nw ← enc (-1) 1
  let n ← enc 0 1
  let ne ← enc 1 1
  let w ← enc (-1) 0
  let center ← enc 0 0
  let e ← enc 1 0
  let sw ← enc (-1) (-1)
  let s ← enc 0 (-1)
  let se ← enc 1 (-1)
  .ok [nw, n, ne, w, center, e, sw, s, se]

/-- Twice the signed area contribution of the edge from `p` to `q`. -/
def cross2 (p q : ℚ × ℚ) : ℚ := p.1 * q.2 - q.1 * p.2

/-- Helper for the cyclic shoelace sum. -/
def shoelace_aux (first prev : ℚ × ℚ) : List (ℚ × ℚ) → ℚ
  | [] => cross2 prev first
  | q :: rest => cross2 prev q + shoelace_aux first q rest

/-- Twice the signed area of a polygon (positive iff counter-clockwise). -/
def shoelace : List (ℚ × ℚ) → ℚ
  | [] => 0
  | p :: rest => shoelace_aux p p rest

/-! ## Theorems -/

/-- C10: decoding the empty string raises no error in any of the three
variants and returns the degenerate whole-world cell: center (0, 0),
`lon_err = 180`, `lat_err = 90`. -/
theorem C10_decode_empty_string :
    Sonnet.decode "" = .ok ⟨0, 0, 180, 90, ""⟩ ∧
    Codex.decode "" "pointerr" = .ok (.pointerr 0 0 180 90) ∧
    GeohashPy.decode "" "point" = .point 0 0 := by
  refine ⟨?_, ?_, ?_⟩
  · norm_num [Sonnet.decode, Sonnet.from_geohash, Sonnet.geohash_to_bits,
      Sonnet.refine_interval, Sonnet.LON_RANGE, Sonnet.LAT_RANGE, evens, odds,
      Bind.bind, Except.bind]
  · simp [Codex.decode, Codex.geohash_to_bits, Codex.refine_interval, evens, odds,
      Bind.bind, Except.bind]
  · simp [GeohashPy.decode, GeohashPy.get_geobits, GeohashPy.get_geobits_aux,
      GeohashPy.get_degrees, GeohashPy.get_degrees_loop, evens, odds]

/-- C4 (code bug, failing input `decode("a")` in `geohash.py`): on an invalid
character, `geohash.py`'s `get_geobits` RETURNS its error message as a string
value instead of raising — contradicting its own docstring ("Geohash in,
bits out") — and `decode` then slices that message and feeds it through
`get_degrees` as if it were bits, silently returning a garbage coordinate
value instead of surfacing an error.  (`sonnet_geo.py` behaves as the claim
says: it raises `InvalidGeohashError` whose message names the offending
character.) -/
theorem C4_geohash_py_decode_returns_value_on_invalid_char :
    GeohashPy.get_geobits "a" =
      "Invalid geohash character.  Use 0-9, b-h, j, k, m, n, p-z.".toList ∧
    GeohashPy.decode "a" "point" =
      .point (24158822355 / 134217728) (24159190995 / 268435456) ∧
    Sonnet.decode "a" = .error (.invalidGeohash
      "Invalid geohash character a. Valid characters: 0123456789bcdefghjkmnpqrstuvwxyz") ∧
    'a' ∈ "Invalid geohash character a. Valid characters: 0123456789bcdefghjkmnpqrstuvwxyz".toList := by
  have hgb : GeohashPy.get_geobits "a" =
      "Invalid geohash character.  Use 0-9, b-h, j, k, m, n, p-z.".toList := by decide
  refine ⟨hgb, ?_, rfl, by decide⟩
  simp [GeohashPy.decode, hgb, GeohashPy.get_degrees, GeohashPy.get_degrees_loop, evens, odds]
  norm_num

/-- C2 counterexample: the claim asserts that in EVERY bisection step of
encode a tie (`value == mid`) emits bit 1 and keeps the upper half.  This is
false for `geohash.py`: `get_bits` uses the strict comparison
`degrees > mid`, so at `degrees = 0 = mid` of the initial longitude interval
the emitted bit is '0' and the LOWER half is kept; consequently
`geohash.py` encodes (0, 0) as "7" while the tie-to-upper variants produce
the standard "s". -/
theorem C2_counterexample_geohash_py_tie_emits_zero :
    (0 : ℚ) = ((-180 : ℚ) + 180) / 2 ∧
    GeohashPy.get_bits_loop 0 (-180, 180) 1 = ['0'] ∧
    GeohashPy.get_bits 0 1 180 = ['0', '1', '1'] ∧
    GeohashPy.encode 0 0 1 = "7" ∧
    Sonnet.encode 0 0 1 = .ok "s" := by
  refine ⟨by norm_num, ?_, ?_, ?_, ?_⟩
  · norm_num [GeohashPy.get_bits_loop]
  · norm_num [GeohashPy.get_bits, GeohashPy.get_bits_loop, Int.fdiv, Int.fmod]
  · norm_num [GeohashPy.encode, GeohashPy.get_bits, GeohashPy.get_bits_loop,
      GeohashPy.zip_longest_join, GeohashPy.bits_val, GeohashPy.base32,
      Int.fdiv, Int.fmod, List.range_succ]
    decide
  · norm_num [Sonnet.encode, Sonnet.total_bits, Sonnet.bits_to_geohash,
      Sonnet.bits_to_geohash_aux, Sonnet.encode_loop, Sonnet.encode_step,
      Sonnet.LON_RANGE, Sonnet.LAT_RANGE, Sonnet.BITS_PER_CHAR, Sonnet.BASE32_ALPHABET,
      Bind.bind, Except.bind]

/-- C3 counterexample: the claim asserts `encode` fails with an
InvalidCoordinate error whenever the longitude is out of `[-180, 180]`, but
`codex_geo.py`'s `encode` performs no coordinate validation at all and
happily returns a geohash for longitude 200; likewise `geohash.py`'s
`encode` performs no validation whatsoever and returns `""` for precision 0
instead of raising. -/
theorem C3_counterexample_codex_encode_skips_validation :
    (180 : ℚ) < 200 ∧
    Codex.encode 200 0 1 = .ok "x" ∧
    GeohashPy.encode 0 0 0 = "" := by
  refine ⟨by norm_num, ?_, ?_⟩
  · norm_num [Codex.encode, Codex.total_bits, Codex.bits_to_geohash,
      Codex.bits_to_geohash_aux, Codex.encode_loop, Codex.encode_step,
      Codex.BASE32_ALPHABET, Bind.bind, Except.bind]
  · norm_num [GeohashPy.encode, GeohashPy.get_bits, GeohashPy.get_bits_loop,
      Int.fdiv, Int.fmod]

/-- C5 counterexample: the claim asserts `neighbors` returns the 3×3 grid in
row-major order `[NW, N, NE, W, Center, E, SW, S, SE]`.  For the input "s"
(cell center (22.5, 22.5), steps of 45 degrees), the north neighbor — the
cell one latitude step up, longitude unchanged, re-encoded — is "u", but
`codex_geo.py`'s `neighbors` puts the WEST neighbor "e" at position 1: its
loops iterate longitude on the outside, producing column-major order
`[NW, W, SW, N, C, S, NE, E, SE]`. -/
theorem C5_counterexample_codex_neighbors_column_major :
    Codex.neighbors "s" = .ok ["g", "e", "7", "u", "s", "k", "v", "t", "m"] ∧
    Codex.encode (Codex.wrap_longitude (45 / 2 + 0 * 45))
      (max (min (45 / 2 + 1 * 45) 90) (-90)) 1 = .ok "u" ∧
    ["g", "e", "7", "u", "s", "k", "v", "t", "m"].get? 1 = some "e" ∧
    ("e" : String) ≠ "u" := by
  have hbits : Codex.geohash_to_bits ['s'] = .ok [true, true, false, false, false] := rfl
  have hdec : Codex.decode "s" "pointerr" = .ok (.pointerr (45/2) (45/2) (45/2) (45/2)) := by
    simp [Codex.decode, hbits, evens, odds, Codex.refine_interval, Bind.bind, Except.bind]
    norm_num
  refine ⟨?_, ?_, by decide, by decide⟩
  · rw [Codex.neighbors, hdec]
    norm_num [Codex.neighbor_grid, Codex.neighbor_col, Codex.wrap_longitude, pymod,
      Codex.encode, Codex.total_bits, Codex.encode_loop, Codex.encode_step,
      Codex.bits_to_geohash, Codex.bits_to_geohash_aux, Codex.BASE32_ALPHABET,
      Bind.bind, Except.bind, show ("s").length = 1 from rfl]
  · norm_num [Codex.wrap_longitude, pymod, Codex.encode, Codex.total_bits,
      Codex.encode_loop, Codex.encode_step, Codex.bits_to_geohash,
      Codex.bits_to_geohash_aux, Codex.BASE32_ALPHABET, Bind.bind, Except.bind]

/-- C7 counterexample: the claim asserts the polygon view lists the corners
counter-clockwise as SW, SE, NE, NW.  `codex_geo.py`'s `to_polygon` (and the
polygon branch of `geohash.py`'s `decode`) instead returns SW, SE, NW, NE:
at index 2 sits the north-WEST corner, not the north-east one, and there is
no `closed` flag at all. -/
theorem C7_counterexample_codex_polygon_order :
    Codex.to_polygon ⟨0, 0, 1, 1⟩ = [(-1, -1), (1, -1), (-1, 1), (1, 1)] ∧
    ([(-1, -1), (1, -1), (-1, 1), (1, 1)] : List (ℚ × ℚ)).get? 2 = some (-1, 1) ∧
    ((-1, 1) : ℚ × ℚ) ≠ (1, 1) := by
  refine ⟨?_, by norm_num, by norm_num⟩
  norm_num [Codex.to_polygon]

theorem encode_loop_length (lon lat : ℚ) :
    ∀ (n : ℕ) (lonI latI : ℚ × ℚ) (u : Bool),
      (Sonnet.encode_loop lon lat lonI latI u n).length = n := by
  intro n
  induction n with
  | zero => intro lonI latI u; rfl
  | succ n ih =>
    intro lonI latI u
    cases u <;> simp [Sonnet.encode_loop, ih]

theorem evens_odds_length {α : Type} :
    ∀ l : List α, (evens l).length = (l.length + 1) / 2 ∧ (odds l).length = l.length / 2 := by
  intro l
  induction l with
  | nil => simp [evens, odds]
  | cons a t ih =>
    refine ⟨?_, ?_⟩
    · simp only [evens, List.length_cons, ih.2]; omega
    · simp only [odds, List.length_cons, ih.1]

theorem evens_odds_ext {α : Type} :
    ∀ l l' : List α, evens l = evens l' → odds l = odds l' → l = l' := by
  intro l
  induction l with
  | nil =>
    intro l' he _
    cases l' with
    | nil => rfl
    | cons a t => simp [evens] at he
  | cons a t ih =>
    intro l' he ho
    cases l' with
    | nil => simp [evens] at he
    | cons b t' =>
      simp only [evens, odds, List.cons.injEq] at he ho ⊢
      exact ⟨he.1, ih t' ho he.2⟩

theorem evens_odds_append {α : Type} :
    ∀ a b : List α,
      (∃ u, evens (a ++ b) = evens a ++ u) ∧ (∃ u, odds (a ++ b) = odds a ++ u) := by
  intro a
  induction a with
  | nil => intro b; exact ⟨⟨evens b, rfl⟩, ⟨odds b, rfl⟩⟩
  | cons x t ih =>
    intro b
    refine ⟨?_, ?_⟩
    · obtain ⟨u, hu⟩ := (ih b).2
      exact ⟨u, by simp [evens, hu]⟩
    · obtain ⟨u, hu⟩ := (ih b).1
      exact ⟨u, by simp [odds, hu]⟩

theorem refine_interval_cons (b : Bool) (t : List Bool) (low high : ℚ) :
    Sonnet.refine_interval (b :: t) (low, high) =
      Sonnet.refine_interval t
        (if b then ((low + high) / 2, high) else (low, (low + high) / 2)) := by
  cases b <;> simp [Sonnet.refine_interval]

theorem refine_interval_append (a b : List Bool) :
    ∀ r : ℚ × ℚ, Sonnet.refine_interval (a ++ b) r =
      Sonnet.refine_interval b (Sonnet.refine_interval a r) := by
  induction a with
  | nil => intro r; rfl
  | cons bit t ih =>
    intro r
    obtain ⟨low, high⟩ := r
    cases bit <;> simp [Sonnet.refine_interval, ih]

theorem refine_interval_nested (bs : List Bool) :
    ∀ low high : ℚ, low < high →
      low ≤ (Sonnet.refine_interval bs (low, high)).1 ∧
      (Sonnet.refine_interval bs (low, high)).1 < (Sonnet.refine_interval bs (low, high)).2 ∧
      (Sonnet.refine_interval bs (low, high)).2 ≤ high := by
  induction bs with
  | nil => intro low high h; exact ⟨le_refl _, h, le_refl _⟩
  | cons b t ih =>
    intro low high h
    have hmid1 : low < (low + high) / 2 := by linarith
    have hmid2 : (low + high) / 2 < high := by linarith
    cases b
    · rw [refine_interval_cons]
      simp only [Bool.false_eq_true, if_false]
      have h3 := ih low ((low + high) / 2) hmid1
      exact ⟨h3.1, h3.2.1, le_trans h3.2.2 (le_of_lt hmid2)⟩
    · rw [refine_interval_cons]
      simp only [if_true]
      have h3 := ih ((low + high) / 2) high hmid2
      exact ⟨le_trans (le_of_lt hmid1) h3.1, h3.2.1, h3.2.2⟩

theorem axis_encode_ge (value low high : ℚ) (n : ℕ) (h : value ≥ (low + high) / 2) :
    axis_encode value (low, high) (n + 1) =
      true :: axis_encode value ((low + high) / 2, high) n := by
  simp [axis_encode, Sonnet.encode_step, h]

theorem axis_encode_lt (value low high : ℚ) (n : ℕ) (h : ¬ value ≥ (low + high) / 2) :
    axis_encode value (low, high) (n + 1) =
      false :: axis_encode value (low, (low + high) / 2) n := by
  simp [axis_encode, Sonnet.encode_step, h]

theorem refine_axis_contains (value : ℚ) :
    ∀ (n : ℕ) (low high : ℚ), low ≤ value → value ≤ high →
      (Sonnet.refine_interval (axis_encode value (low, high) n) (low, high)).1 ≤ value ∧
      value ≤ (Sonnet.refine_interval (axis_encode value (low, high) n) (low, high)).2 := by
  intro n
  induction n with
  | zero => intro low high h1 h2; exact ⟨h1, h2⟩
  | succ n ih =>
    intro low high h1 h2
    by_cases h : value ≥ (low + high) / 2
    · rw [axis_encode_ge value low high n h, refine_interval_cons]
      simp only [if_true]
      exact ih ((low + high) / 2) high h h2
    · rw [axis_encode_lt value low high n h, refine_interval_cons]
      simp only [Bool.false_eq_true, if_false]
      exact ih low ((low + high) / 2) h1 (le_of_lt (lt_of_not_ge h))

theorem axis_encode_center (bs : List Bool) :
    ∀ low high : ℚ, low < high →
      axis_encode (((Sonnet.refine_interval bs (low, high)).1 +
        (Sonnet.refine_interval bs (low, high)).2) / 2) (low, high) bs.length = bs := by
  induction bs with
  | nil => intro low high _; rfl
  | cons b t ih =>
    intro low high h
    have hmid1 : low < (low + high) / 2 := by linarith
    have hmid2 : (low + high) / 2 < high := by linarith
    cases b
    · rw [refine_interval_cons]
      simp only [Bool.false_eq_true, if_false]
      have hn := refine_interval_nested t low ((low + high) / 2) hmid1
      have hc : ¬ ((Sonnet.refine_interval t (low, (low + high) / 2)).1 +
          (Sonnet.refine_interval t (low, (low + high) / 2)).2) / 2 ≥ (low + high) / 2 := by
        have := hn.2.1
        have := hn.2.2
        push_neg
        linarith
      rw [List.length_cons, axis_encode_lt _ _ _ _ hc]
      exact congrArg (List.cons false) (ih low ((low + high) / 2) hmid1)
    · rw [refine_interval_cons]
      simp only [if_true]
      have hn := refine_interval_nested t ((low + high) / 2) high hmid2
      have hc : ((Sonnet.refine_interval t ((low + high) / 2, high)).1 +
          (Sonnet.refine_interval t ((low + high) / 2, high)).2) / 2 ≥ (low + high) / 2 := by
        have := hn.1
        have := hn.2.1
        linarith
      rw [List.length_cons, axis_encode_ge _ _ _ _ hc]
      exact congrArg (List.cons true) (ih ((low + high) / 2) high hmid2)

theorem encode_loop_evens_odds (lon lat : ℚ) :
    ∀ (n : ℕ) (lonI latI : ℚ × ℚ),
      (evens (Sonnet.encode_loop lon lat lonI latI true n) =
         axis_encode lon lonI ((n + 1) / 2) ∧
       odds (Sonnet.encode_loop lon lat lonI latI true n) =
         axis_encode lat latI (n / 2)) ∧
      (evens (Sonnet.encode_loop lon lat lonI latI false n) =
         axis_encode lat latI ((n + 1) / 2) ∧
       odds (Sonnet.encode_loop lon lat lonI latI false n) =
         axis_encode lon lonI (n / 2)) := by
  intro n
  induction n with
  | zero =>
    intro lonI latI
    obtain ⟨a, b⟩ := lonI
    obtain ⟨c, d⟩ := latI
    simp [Sonnet.encode_loop, axis_encode, evens, odds]
  | succ n ih =>
    intro lonI latI
    obtain ⟨lo, hi⟩ := lonI
    obtain ⟨lo2, hi2⟩ := latI
    have e2 : (n + 1 + 1) / 2 = n / 2 + 1 := by omega
    have e3 : (n + 1) / 2 = (n + 1) / 2 := rfl
    constructor
    · constructor
      · rw [e2]
        by_cases h : lon ≥ (lo + hi) / 2
        · rw [axis_encode_ge _ _ _ _ h]
          simp only [Sonnet.encode_loop, Sonnet.encode_step, h, if_true, evens]
          exact congrArg (List.cons true) ((ih ((lo + hi) / 2, hi) (lo2, hi2)).2.2)
        · rw [axis_encode_lt _ _ _ _ h]
          simp only [Sonnet.encode_loop, Sonnet.encode_step, h, if_false, evens]
          exact congrArg (List.cons false) ((ih (lo, (lo + hi) / 2) (lo2, hi2)).2.2)
      · by_cases h : lon ≥ (lo + hi) / 2 <;>
          simp only [Sonnet.encode_loop, Sonnet.encode_step, h, if_true, if_false, odds]
        · exact (ih ((lo + hi) / 2, hi) (lo2, hi2)).2.1
        · exact (ih (lo, (lo + hi) / 2) (lo2, hi2)).2.1
    · constructor
      · rw [e2]
        by_cases h : lat ≥ (lo2 + hi2) / 2
        · rw [axis_encode_ge _ _ _ _ h]
          simp only [Sonnet.encode_loop, Sonnet.encode_step, h, if_true, evens]
          exact congrArg (List.cons true) ((ih (lo, hi) ((lo2 + hi2) / 2, hi2)).1.2)
        · rw [axis_encode_lt _ _ _ _ h]
          simp only [Sonnet.encode_loop, Sonnet.encode_step, h, if_false, evens]
          exact congrArg (List.cons false) ((ih (lo, hi) (lo2, (lo2 + hi2) / 2)).1.2)
      · by_cases h : lat ≥ (lo2 + hi2) / 2 <;>
          simp only [Sonnet.encode_loop, Sonnet.encode_step, h, if_true, if_false, odds]
        · exact (ih (lo, hi) ((lo2 + hi2) / 2, hi2)).1.1
        · exact (ih (lo, hi) (lo2, (lo2 + hi2) / 2)).1.1

theorem indexOfChar_spec (c : Char) :
    ∀ (l : List Char) (i v : ℕ), indexOfChar c l i = some v →
      i ≤ v ∧ v - i < l.length ∧ l.getD (v - i) ' ' = c := by
  intro l
  induction l with
  | nil => intro i v h; simp [indexOfChar] at h
  | cons a t ih =>
    intro i v h
    by_cases ha : a = c
    · simp only [indexOfChar, ha, if_true, Option.some.injEq] at h
      subst h
      simp [ha]
    · simp only [indexOfChar, ha, if_false] at h
      have h3 := ih (i + 1) v h
      refine ⟨by omega, by simp; omega, ?_⟩
      rw [show v - i = (v - (i + 1)) + 1 from by omega]
      simpa using h3.2.2

theorem decode_map_spec (c : Char) (v : ℕ) (h : Sonnet.BASE32_DECODE_MAP c = some v) :
    v < 32 ∧ Sonnet.BASE32_ALPHABET.getD v ' ' = c := by
  have h3 := indexOfChar_spec c Sonnet.BASE32_ALPHABET 0 v h
  rw [Nat.sub_zero] at h3
  exact ⟨h3.2.1, h3.2.2⟩

theorem val5_char_bits : ∀ v : ℕ, v < 32 → val5 (Sonnet.char_bits v) = v := by decide

theorem char_bits_val5 : ∀ b0 b1 b2 b3 b4 : Bool,
    Sonnet.char_bits (val5 [b0, b1, b2, b3, b4]) = [b0, b1, b2, b3, b4] := by decide

theorem val5_lt_32 : ∀ b0 b1 b2 b3 b4 : Bool, val5 [b0, b1, b2, b3, b4] < 32 := by decide

theorem decode_map_getD : ∀ v : ℕ, v < 32 →
    Sonnet.BASE32_DECODE_MAP (Sonnet.BASE32_ALPHABET.getD v ' ') = some v := by decide

theorem exists_five {α : Type} (l : List α) (h : 5 ≤ l.length) :
    ∃ a b c d e t, l = a :: b :: c :: d :: e :: t := by
  rcases l with _ | ⟨a, l⟩; · simp at h
  rcases l with _ | ⟨b, l⟩; · simp at h
  rcases l with _ | ⟨c, l⟩; · simp at h
  rcases l with _ | ⟨d, l⟩; · simp at h
  rcases l with _ | ⟨e, l⟩; · simp at h
  exact ⟨a, b, c, d, e, l, rfl⟩

theorem bits_to_geohash_aux_block (b0 b1 b2 b3 b4 : Bool) (rest : List Bool) :
    Sonnet.bits_to_geohash_aux (b0 :: b1 :: b2 :: b3 :: b4 :: rest) 0 0 =
      Sonnet.BASE32_ALPHABET.getD (val5 [b0, b1, b2, b3, b4]) ' ' ::
        Sonnet.bits_to_geohash_aux rest 0 0 := rfl

theorem bits_of_append : ∀ a b : List Char, bits_of (a ++ b) = bits_of a ++ bits_of b := by
  intro a b
  induction a with
  | nil => rfl
  | cons c t ih => simp [bits_of, ih]

theorem char_bits_length (v : ℕ) : (Sonnet.char_bits v).length = 5 := by
  simp [Sonnet.char_bits]

theorem bits_of_length : ∀ l : List Char, (bits_of l).length = 5 * l.length := by
  intro l
  induction l with
  | nil => rfl
  | cons c t ih => simp [bits_of, ih, char_bits_length]; omega

theorem geohash_to_bits_valid :
    ∀ l : List Char, (∀ c ∈ l, (Sonnet.BASE32_DECODE_MAP c).isSome) →
      Sonnet.geohash_to_bits l = .ok (bits_of l) := by
  intro l
  induction l with
  | nil => intro _; rfl
  | cons c t ih =>
    intro h
    obtain ⟨v, hv⟩ := Option.isSome_iff_exists.mp (h c (List.mem_cons_self c t))
    have ht := ih (fun x hx => h x (List.mem_cons_of_mem c hx))
    simp [Sonnet.geohash_to_bits, hv, ht, Bind.bind, Except.bind, bits_of]

theorem bits_to_geohash_aux_bits_of :
    ∀ l : List Char, (∀ c ∈ l, (Sonnet.BASE32_DECODE_MAP c).isSome) →
      Sonnet.bits_to_geohash_aux (bits_of l) 0 0 = l := by
  intro l
  induction l with
  | nil => intro _; rfl
  | cons c t ih =>
    intro h
    obtain ⟨v, hv⟩ := Option.isSome_iff_exists.mp (h c (List.mem_cons_self c t))
    have hspec := decode_map_spec c v hv
    have hbits : bits_of (c :: t) = Sonnet.char_bits v ++ bits_of t := by
      simp [bits_of, hv]
    obtain ⟨b0, b1, b2, b3, b4, hb⟩ :
        ∃ b0 b1 b2 b3 b4, Sonnet.char_bits v = [b0, b1, b2, b3, b4] := by
      obtain ⟨b0, b1, b2, b3, b4, t', h5⟩ :=
        exists_five (Sonnet.char_bits v) (by rw [char_bits_length])
      have : t' = [] := by
        have := char_bits_length v
        rw [h5] at this
        simpa using this
      exact ⟨b0, b1, b2, b3, b4, by rw [h5, this]⟩
    rw [hbits, hb]
    rw [show ([b0, b1, b2, b3, b4] : List Bool) ++ bits_of t =
      b0 :: b1 :: b2 :: b3 :: b4 :: bits_of t from rfl]
    rw [bits_to_geohash_aux_block]
    rw [ih (fun x hx => h x (List.mem_cons_of_mem c hx))]
    rw [← hb, val5_char_bits v hspec.1, hspec.2]

theorem geohash_to_bits_aux :
    ∀ (n : ℕ) (bits : List Bool), bits.length = 5 * n →
      Sonnet.geohash_to_bits (Sonnet.bits_to_geohash_aux bits 0 0) = .ok bits := by
  intro n
  induction n with
  | zero =>
    intro bits h
    have hb : bits = [] := List.length_eq_zero.mp (by omega)
    subst hb
    rfl
  | succ n ih =>
    intro bits h
    obtain ⟨b0, b1, b2, b3, b4, t, rfl⟩ := exists_five bits (by omega)
    rw [bits_to_geohash_aux_block]
    have hv : val5 [b0, b1, b2, b3, b4] < 32 := val5_lt_32 b0 b1 b2 b3 b4
    have hm := decode_map_getD _ hv
    have ht : t.length = 5 * n := by simp at h; omega
    simp only [Sonnet.geohash_to_bits, hm, ih t ht, Bind.bind, Except.bind,
      char_bits_val5 b0 b1 b2 b3 b4, List.cons_append, List.nil_append]

theorem bits_to_geohash_aux_length :
    ∀ (n : ℕ) (bits : List Bool), bits.length = 5 * n →
      (Sonnet.bits_to_geohash_aux bits 0 0).length = n := by
  intro n
  induction n with
  | zero =>
    intro bits h
    have hb : bits = [] := List.length_eq_zero.mp (by omega)
    subst hb
    rfl
  | succ n ih =>
    intro bits h
    obtain ⟨b0, b1, b2, b3, b4, t, rfl⟩ := exists_five bits (by omega)
    rw [bits_to_geohash_aux_block]
    have ht : t.length = 5 * n := by simp at h; omega
    simp [List.length_cons, ih t ht]

theorem encode_eval (lon lat : ℚ) (p : ℤ) (h1 : -180 ≤ lon) (h2 : lon ≤ 180)
    (h3 : -90 ≤ lat) (h4 : lat ≤ 90) (hp : 0 < p) :
    Sonnet.encode lon lat p = .ok (String.mk (Sonnet.bits_to_geohash_aux
      (Sonnet.encode_loop lon lat (-180, 180) (-90, 90) true (p.toNat * 5)) 0 0)) := by
  have c1 : ¬ ¬ (Sonnet.LAT_RANGE.1 ≤ lat ∧ lat ≤ Sonnet.LAT_RANGE.2) :=
    not_not.mpr ⟨h3, h4⟩
  have c2 : ¬ ¬ (Sonnet.LON_RANGE.1 ≤ lon ∧ lon ≤ Sonnet.LON_RANGE.2) :=
    not_not.mpr ⟨h1, h2⟩
  have c3 : ¬ (p ≤ 0) := by omega
  rw [Sonnet.encode, if_neg c1, if_neg c2]
  simp only [Sonnet.total_bits, if_neg c3, Bind.bind, Except.bind]
  rw [Sonnet.bits_to_geohash,
    if_neg (by rw [encode_loop_length]; simp [Sonnet.BITS_PER_CHAR])]
  rfl

theorem decode_eval (g : String) (hv : ValidGeohash g) :
    Sonnet.decode g = .ok (cell_of g) := by
  have hb := geohash_to_bits_valid g.toList hv
  simp only [Sonnet.decode, Sonnet.from_geohash, hb, Bind.bind, Except.bind, cell_of]

/-- C1: for every in-range longitude and latitude and positive precision,
decoding the encoded geohash yields a cell whose center differs from the
input by at most the cell's own error bounds, on each axis. -/
theorem C1_round_trip_error_bound (lon lat : ℚ) (p : ℤ)
    (h1 : -180 ≤ lon) (h2 : lon ≤ 180) (h3 : -90 ≤ lat) (h4 : lat ≤ 90) (hp : 0 < p) :
    ∃ g cell, Sonnet.encode lon lat p = .ok g ∧ Sonnet.decode g = .ok cell ∧
      |cell.lon - lon| ≤ cell.lon_err ∧ |cell.lat - lat| ≤ cell.lat_err := by
  have henc := encode_eval lon lat p h1 h2 h3 h4 hp
  set bits := Sonnet.encode_loop lon lat (-180, 180) (-90, 90) true (p.toNat * 5) with hbits
  set g := String.mk (Sonnet.bits_to_geohash_aux bits 0 0) with hg
  have hlen : bits.length = p.toNat * 5 := encode_loop_length lon lat _ _ _ _
  have hgl : g.toList = Sonnet.bits_to_geohash_aux bits 0 0 := rfl
  have hgb : Sonnet.geohash_to_bits g.toList = .ok bits := by
    rw [hgl]
    exact geohash_to_bits_aux p.toNat bits (by omega)
  have hdec : Sonnet.decode g = .ok
      { lon := ((Sonnet.refine_interval (evens bits) Sonnet.LON_RANGE).1 +
          (Sonnet.refine_interval (evens bits) Sonnet.LON_RANGE).2) / 2,
        lat := ((Sonnet.refine_interval (odds bits) Sonnet.LAT_RANGE).1 +
          (Sonnet.refine_interval (odds bits) Sonnet.LAT_RANGE).2) / 2,
        lon_err := ((Sonnet.refine_interval (evens bits) Sonnet.LON_RANGE).2 -
          (Sonnet.refine_interval (evens bits) Sonnet.LON_RANGE).1) / 2,
        lat_err := ((Sonnet.refine_interval (odds bits) Sonnet.LAT_RANGE).2 -
          (Sonnet.refine_interval (odds bits) Sonnet.LAT_RANGE).1) / 2,
        geohash := g } := by
    simp only [Sonnet.decode, Sonnet.from_geohash, hgb, Bind.bind, Except.bind]
  have he : evens bits = axis_encode lon (-180, 180) ((p.toNat * 5 + 1) / 2) :=
    ((encode_loop_evens_odds lon lat (p.toNat * 5) (-180, 180) (-90, 90)).1).1
  have ho : odds bits = axis_encode lat (-90, 90) ((p.toNat * 5) / 2) :=
    ((encode_loop_evens_odds lon lat (p.toNat * 5) (-180, 180) (-90, 90)).1).2
  have hlonc := refine_axis_contains lon ((p.toNat * 5 + 1) / 2) (-180) 180 h1 h2
  have hlatc := refine_axis_contains lat ((p.toNat * 5) / 2) (-90) 90 h3 h4
  refine ⟨g, _, henc, hdec, ?_, ?_⟩
  · rw [abs_le]
    have hL : Sonnet.LON_RANGE = ((-180 : ℚ), (180 : ℚ)) := rfl
    rw [hL, he]
    constructor <;> simp only <;> linarith [hlonc.1, hlonc.2]
  · rw [abs_le]
    have hL : Sonnet.LAT_RANGE = ((-90 : ℚ), (90 : ℚ)) := rfl
    rw [hL, ho]
    constructor <;> simp only <;> linarith [hlatc.1, hlatc.2]

/-- C1 witness: the bound holds concretely at (lon, lat) = (10, 20), precision 2. -/
theorem C1_round_trip_error_bound_witness :
    ∃ g cell, Sonnet.encode 10 20 2 = .ok g ∧ Sonnet.decode g = .ok cell ∧
      |cell.lon - 10| ≤ cell.lon_err ∧ |cell.lat - 20| ≤ cell.lat_err :=
  C1_round_trip_error_bound 10 20 2 (by norm_num) (by norm_num) (by norm_num)
    (by norm_num) (by norm_num)


theorem cell_of_bounds (s : String) :
    (cell_of s).lon - (cell_of s).lon_err =
      (Sonnet.refine_interval (evens (bits_of s.toList)) Sonnet.LON_RANGE).1 ∧
    (cell_of s).lon + (cell_of s).lon_err =
      (Sonnet.refine_interval (evens (bits_of s.toList)) Sonnet.LON_RANGE).2 ∧
    (cell_of s).lat - (cell_of s).lat_err =
      (Sonnet.refine_interval (odds (bits_of s.toList)) Sonnet.LAT_RANGE).1 ∧
    (cell_of s).lat + (cell_of s).lat_err =
      (Sonnet.refine_interval (odds (bits_of s.toList)) Sonnet.LAT_RANGE).2 := by
  refine ⟨?_, ?_, ?_, ?_⟩
  · show ((Sonnet.refine_interval (evens (bits_of s.toList)) Sonnet.LON_RANGE).1 +
      (Sonnet.refine_interval (evens (bits_of s.toList)) Sonnet.LON_RANGE).2) / 2 -
      ((Sonnet.refine_interval (evens (bits_of s.toList)) Sonnet.LON_RANGE).2 -
      (Sonnet.refine_interval (evens (bits_of s.toList)) Sonnet.LON_RANGE).1) / 2 = _
    ring
  · show ((Sonnet.refine_interval (evens (bits_of s.toList)) Sonnet.LON_RANGE).1 +
      (Sonnet.refine_interval (evens (bits_of s.toList)) Sonnet.LON_RANGE).2) / 2 +
      ((Sonnet.refine_interval (evens (bits_of s.toList)) Sonnet.LON_RANGE).2 -
      (Sonnet.refine_interval (evens (bits_of s.toList)) Sonnet.LON_RANGE).1) / 2 = _
    ring
  · show ((Sonnet.refine_interval (odds (bits_of s.toList)) Sonnet.LAT_RANGE).1 +
      (Sonnet.refine_interval (odds (bits_of s.toList)) Sonnet.LAT_RANGE).2) / 2 -
      ((Sonnet.refine_interval (odds (bits_of s.toList)) Sonnet.LAT_RANGE).2 -
      (Sonnet.refine_interval (odds (bits_of s.toList)) Sonnet.LAT_RANGE).1) / 2 = _
    ring
  · show ((Sonnet.refine_interval (odds (bits_of s.toList)) Sonnet.LAT_RANGE).1 +
      (Sonnet.refine_interval (odds (bits_of s.toList)) Sonnet.LAT_RANGE).2) / 2 +
      ((Sonnet.refine_interval (odds (bits_of s.toList)) Sonnet.LAT_RANGE).2 -
      (Sonnet.refine_interval (odds (bits_of s.toList)) Sonnet.LAT_RANGE).1) / 2 = _
    ring

/-- C8: for every valid geohash of length at least 2, the bounding box of the
parent geohash contains the bounding box of the geohash itself. -/
theorem C8_parent_bbox_contains (g : String) (hv : ValidGeohash g) (hlen : 2 ≤ g.length) :
    ∃ cp ch, Sonnet.decode (Sonnet.parent g) = .ok cp ∧ Sonnet.decode g = .ok ch ∧
      (Sonnet.to_bbox cp).1 ≤ (Sonnet.to_bbox ch).1 ∧
      (Sonnet.to_bbox cp).2.1 ≤ (Sonnet.to_bbox ch).2.1 ∧
      (Sonnet.to_bbox ch).2.2.1 ≤ (Sonnet.to_bbox cp).2.2.1 ∧
      (Sonnet.to_bbox ch).2.2.2 ≤ (Sonnet.to_bbox cp).2.2.2 := by
  have hlg : g.toList.length = g.length := rfl
  have hne : g.toList ≠ [] := by
    intro h0
    rw [← hlg, h0] at hlen
    simp at hlen
  have hsplit := List.dropLast_append_getLast hne
  have hpar : Sonnet.parent g = String.mk g.toList.dropLast := by
    rw [Sonnet.parent, if_pos (by omega)]
  have hmka : (String.mk g.toList.dropLast).toList = g.toList.dropLast := rfl
  have hva : ValidGeohash (String.mk g.toList.dropLast) := by
    intro c hc
    rw [hmka] at hc
    exact hv c (List.dropLast_subset g.toList hc)
  have hdg := decode_eval g hv
  refine ⟨cell_of (String.mk g.toList.dropLast), cell_of g,
    by rw [hpar]; exact decode_eval _ hva, hdg, ?_, ?_, ?_, ?_⟩ <;>
  · have hbg : bits_of g.toList =
        bits_of g.toList.dropLast ++ bits_of [g.toList.getLast hne] := by
      conv_lhs => rw [← hsplit]
      rw [bits_of_append]
    obtain ⟨u, hu⟩ :=
      (evens_odds_append (bits_of g.toList.dropLast) (bits_of [g.toList.getLast hne])).1
    obtain ⟨w, hw⟩ :=
      (evens_odds_append (bits_of g.toList.dropLast) (bits_of [g.toList.getLast hne])).2
    have hbp := cell_of_bounds (String.mk g.toList.dropLast)
    have hbc := cell_of_bounds g
    rw [hmka] at hbp
    have hPlon := refine_interval_nested (evens (bits_of g.toList.dropLast))
      (-180) 180 (by norm_num)
    have hPlat := refine_interval_nested (odds (bits_of g.toList.dropLast))
      (-90) 90 (by norm_num)
    have hLR : ((-180 : ℚ), (180 : ℚ)) = Sonnet.LON_RANGE := rfl
    have hLT : ((-90 : ℚ), (90 : ℚ)) = Sonnet.LAT_RANGE := rfl
    rw [hLR] at hPlon
    rw [hLT] at hPlat
    have hclon : Sonnet.refine_interval (evens (bits_of g.toList)) Sonnet.LON_RANGE =
        Sonnet.refine_interval u
          (Sonnet.refine_interval (evens (bits_of g.toList.dropLast)) Sonnet.LON_RANGE) := by
      rw [hbg, hu, refine_interval_append]
    have hclat : Sonnet.refine_interval (odds (bits_of g.toList)) Sonnet.LAT_RANGE =
        Sonnet.refine_interval w
          (Sonnet.refine_interval (odds (bits_of g.toList.dropLast)) Sonnet.LAT_RANGE) := by
      rw [hbg, hw, refine_interval_append]
    have hClon := refine_interval_nested u
      (Sonnet.refine_interval (evens (bits_of g.toList.dropLast)) Sonnet.LON_RANGE).1
      (Sonnet.refine_interval (evens (bits_of g.toList.dropLast)) Sonnet.LON_RANGE).2
      hPlon.2.1
    have hClat := refine_interval_nested w
      (Sonnet.refine_interval (odds (bits_of g.toList.dropLast)) Sonnet.LAT_RANGE).1
      (Sonnet.refine_interval (odds (bits_of g.toList.dropLast)) Sonnet.LAT_RANGE).2
      hPlat.2.1
    simp only [Sonnet.to_bbox]
    simp only [Prod.mk.eta] at hClon hClat
    rw [← hclon] at hClon
    rw [← hclat] at hClat
    first
    | (rw [show (cell_of (String.mk g.toList.dropLast)).lon -
          (cell_of (String.mk g.toList.dropLast)).lon_err =
          (Sonnet.refine_interval (evens (bits_of g.toList.dropLast)) Sonnet.LON_RANGE).1
          from hbp.1,
        show (cell_of g).lon - (cell_of g).lon_err =
          (Sonnet.refine_interval (evens (bits_of g.toList)) Sonnet.LON_RANGE).1
          from hbc.1]
       exact hClon.1)
    | (rw [show (cell_of (String.mk g.toList.dropLast)).lat -
          (cell_of (String.mk g.toList.dropLast)).lat_err =
          (Sonnet.refine_interval (odds (bits_of g.toList.dropLast)) Sonnet.LAT_RANGE).1
          from hbp.2.2.1,
        show (cell_of g).lat - (cell_of g).lat_err =
          (Sonnet.refine_interval (odds (bits_of g.toList)) Sonnet.LAT_RANGE).1
          from hbc.2.2.1]
       exact hClat.1)
    | (rw [show (cell_of (String.mk g.toList.dropLast)).lon +
          (cell_of (String.mk g.toList.dropLast)).lon_err =
          (Sonnet.refine_interval (evens (bits_of g.toList.dropLast)) Sonnet.LON_RANGE).2
          from hbp.2.1,
        show (cell_of g).lon + (cell_of g).lon_err =
          (Sonnet.refine_interval (evens (bits_of g.toList)) Sonnet.LON_RANGE).2
          from hbc.2.1]
       exact hClon.2.2)
    | (rw [show (cell_of (String.mk g.toList.dropLast)).lat +
          (cell_of (String.mk g.toList.dropLast)).lat_err =
          (Sonnet.refine_interval (odds (bits_of g.toList.dropLast)) Sonnet.LAT_RANGE).2
          from hbp.2.2.2,
        show (cell_of g).lat + (cell_of g).lat_err =
          (Sonnet.refine_interval (odds (bits_of g.toList)) Sonnet.LAT_RANGE).2
          from hbc.2.2.2]
       exact hClat.2.2)

theorem pymod_bounds (x m : ℚ) (hm : 0 < m) : 0 ≤ pymod x m ∧ pymod x m < m := by
  have h1 : (⌊x / m⌋ : ℚ) ≤ x / m := Int.floor_le _
  have h2 : x / m < ⌊x / m⌋ + 1 := Int.lt_floor_add_one _
  have hmx : m * (x / m) = x := by field_simp
  have h3 : m * (⌊x / m⌋ : ℚ) ≤ m * (x / m) := by
    exact mul_le_mul_of_nonneg_left h1 hm.le
  have h4 : m * (x / m) < m * ((⌊x / m⌋ : ℚ) + 1) := by
    exact mul_lt_mul_of_pos_left h2 hm
  unfold pymod
  constructor <;> nlinarith [h3, h4, hmx]

theorem wrap_longitude_eq (lon : ℚ) :
    Sonnet.wrap_longitude lon =
      if pymod (lon + 180) 360 - 180 = 180 then -180
      else pymod (lon + 180) 360 - 180 := by
  unfold Sonnet.wrap_longitude
  norm_num [Sonnet.LON_RANGE, Sonnet.LON_SPAN, sub_neg_eq_add]
  simp only [← sub_eq_add_neg]

theorem wrap_longitude_bounds (lon : ℚ) :
    -180 ≤ Sonnet.wrap_longitude lon ∧ Sonnet.wrap_longitude lon < 180 := by
  rw [wrap_longitude_eq]
  have h := pymod_bounds (lon + 180) 360 (by norm_num)
  split_ifs with hw
  · norm_num
  · exact ⟨by linarith [h.1], by linarith [h.2]⟩

theorem wrap_longitude_id (lon : ℚ) (h1 : -180 ≤ lon) (h2 : lon < 180) :
    Sonnet.wrap_longitude lon = lon := by
  have hfl : ⌊(lon + 180) / 360⌋ = 0 := by
    rw [Int.floor_eq_zero_iff, Set.mem_Ico]
    constructor
    · apply div_nonneg (by linarith) (by norm_num)
    · rw [div_lt_one (by norm_num)]
      linarith
  rw [wrap_longitude_eq]
  unfold pymod
  rw [hfl]
  have hne : lon + 180 - 360 * ((0 : ℤ) : ℚ) - 180 ≠ 180 := by
    push_cast
    intro h
    linarith
  rw [if_neg hne]
  push_cast
  ring

theorem clamp_latitude_bounds (lat : ℚ) :
    -90 ≤ Sonnet.clamp_latitude lat ∧ Sonnet.clamp_latitude lat ≤ 90 := by
  unfold Sonnet.clamp_latitude
  constructor
  · exact le_max_left _ _
  · rw [max_le_iff]
    exact ⟨by norm_num [Sonnet.LAT_RANGE], le_trans (min_le_right _ _) (by norm_num [Sonnet.LAT_RANGE])⟩

theorem clamp_latitude_id (lat : ℚ) (h1 : -90 ≤ lat) (h2 : lat ≤ 90) :
    Sonnet.clamp_latitude lat = lat := by
  unfold Sonnet.clamp_latitude
  rw [show Sonnet.LAT_RANGE = ((-90 : ℚ), (90 : ℚ)) from rfl]
  simp only [min_eq_left h2]
  exact max_eq_right h1

theorem encode_ok_exists (lon lat : ℚ) (p : ℤ) (h1 : -180 ≤ lon) (h2 : lon ≤ 180)
    (h3 : -90 ≤ lat) (h4 : lat ≤ 90) (hp : 0 < p) :
    ∃ s, Sonnet.encode lon lat p = .ok s ∧ s.length = p.toNat := by
  refine ⟨_, encode_eval lon lat p h1 h2 h3 h4 hp, ?_⟩
  show (Sonnet.bits_to_geohash_aux _ 0 0).length = p.toNat
  exact bits_to_geohash_aux_length p.toNat _ (by rw [encode_loop_length]; omega)

theorem cell_of_center_bounds (g : String) :
    -180 < (cell_of g).lon ∧ (cell_of g).lon < 180 ∧
    -90 < (cell_of g).lat ∧ (cell_of g).lat < 90 := by
  have hlon := refine_interval_nested (evens (bits_of g.toList)) (-180) 180 (by norm_num)
  have hlat := refine_interval_nested (odds (bits_of g.toList)) (-90) 90 (by norm_num)
  refine ⟨?_, ?_, ?_, ?_⟩
  · show -180 < ((Sonnet.refine_interval (evens (bits_of g.toList)) ((-180 : ℚ), 180)).1 +
      (Sonnet.refine_interval (evens (bits_of g.toList)) ((-180 : ℚ), 180)).2) / 2
    linarith [hlon.1, hlon.2.1, hlon.2.2]
  · show ((Sonnet.refine_interval (evens (bits_of g.toList)) ((-180 : ℚ), 180)).1 +
      (Sonnet.refine_interval (evens (bits_of g.toList)) ((-180 : ℚ), 180)).2) / 2 < 180
    linarith [hlon.1, hlon.2.1, hlon.2.2]
  · show -90 < ((Sonnet.refine_interval (odds (bits_of g.toList)) ((-90 : ℚ), 90)).1 +
      (Sonnet.refine_interval (odds (bits_of g.toList)) ((-90 : ℚ), 90)).2) / 2
    linarith [hlat.1, hlat.2.1, hlat.2.2]
  · show ((Sonnet.refine_interval (odds (bits_of g.toList)) ((-90 : ℚ), 90)).1 +
      (Sonnet.refine_interval (odds (bits_of g.toList)) ((-90 : ℚ), 90)).2) / 2 < 90
    linarith [hlat.1, hlat.2.1, hlat.2.2]

set_option maxHeartbeats 1000000 in
theorem neighbors_eval (g : String) (hv : ValidGeohash g) (hne : g.toList ≠ []) :
    Sonnet.neighbors g = row_major_neighbor_list g ∧
    ∃ ns c5, Sonnet.neighbors g = .ok ns ∧ ns.length = 9 ∧
      (∀ s ∈ ns, s.length = g.length) ∧ ns.get? 4 = some c5 ∧
      Sonnet.encode (cell_of g).lon (cell_of g).lat (g.length : ℤ) = .ok c5 := by
  have hdec := decode_eval g hv
  have hp : 0 < (g.length : ℤ) := by
    have h0 : g.toList.length ≠ 0 := fun h => hne (List.length_eq_zero.mp h)
    have hlg : g.toList.length = g.length := rfl
    omega
  have key : ∀ dlon dlat : ℚ, ∃ s,
      Sonnet.encode (Sonnet.wrap_longitude ((cell_of g).lon + dlon * ((cell_of g).lon_err * 2)))
        (Sonnet.clamp_latitude ((cell_of g).lat + dlat * ((cell_of g).lat_err * 2)))
        (g.length : ℤ) = .ok s ∧ s.length = g.length := by
    intro dlon dlat
    have hw := wrap_longitude_bounds ((cell_of g).lon + dlon * ((cell_of g).lon_err * 2))
    have hc := clamp_latitude_bounds ((cell_of g).lat + dlat * ((cell_of g).lat_err * 2))
    obtain ⟨s, hs, hl⟩ := encode_ok_exists _ _ _ hw.1 hw.2.le hc.1 hc.2 hp
    refine ⟨s, hs, ?_⟩
    rw [hl]
    omega
  obtain ⟨s1, hs1, hl1⟩ := key (-1) 1
  obtain ⟨s2, hs2, hl2⟩ := key 0 1
  obtain ⟨s3, hs3, hl3⟩ := key 1 1
  obtain ⟨s4, hs4, hl4⟩ := key (-1) 0
  obtain ⟨s5, hs5, hl5⟩ := key 0 0
  obtain ⟨s6, hs6, hl6⟩ := key 1 0
  obtain ⟨s7, hs7, hl7⟩ := key (-1) (-1)
  obtain ⟨s8, hs8, hl8⟩ := key 0 (-1)
  obtain ⟨s9, hs9, hl9⟩ := key 1 (-1)
  have hns : Sonnet.neighbors g = .ok [s1, s2, s3, s4, s5, s6, s7, s8, s9] := by
    rw [Sonnet.neighbors]
    simp only [hdec, Bind.bind, Except.bind, Sonnet.neighbor_grid, Sonnet.neighbor_row,
      Int.cast_neg, Int.cast_one, Int.cast_zero, hs1, hs2, hs3, hs4, hs5, hs6, hs7, hs8, hs9,
      List.cons_append, List.nil_append, List.append_nil]
  have hrm : row_major_neighbor_list g = .ok [s1, s2, s3, s4, s5, s6, s7, s8, s9] := by
    rw [row_major_neighbor_list]
    simp only [hdec, Bind.bind, Except.bind, hs1, hs2, hs3, hs4, hs5, hs6, hs7, hs8, hs9]
  have hcb := cell_of_center_bounds g
  rw [show (cell_of g).lon + 0 * ((cell_of g).lon_err * 2) = (cell_of g).lon from by ring,
    show (cell_of g).lat + 0 * ((cell_of g).lat_err * 2) = (cell_of g).lat from by ring,
    wrap_longitude_id _ hcb.1.le hcb.2.1,
    clamp_latitude_id _ hcb.2.2.1.le hcb.2.2.2.le] at hs5
  refine ⟨hns.trans hrm.symm, [s1, s2, s3, s4, s5, s6, s7, s8, s9], s5, hns, rfl, ?_, rfl, hs5⟩
  intro s hs
  simp only [List.mem_cons, List.not_mem_nil, or_false] at hs
  rcases hs with h | h | h | h | h | h | h | h | h <;> subst h <;> assumption

theorem encode_center_eq (g : String) (hv : ValidGeohash g) (hne : g.toList ≠ []) :
    Sonnet.encode (cell_of g).lon (cell_of g).lat (g.length : ℤ) = .ok g := by
  have hcb := cell_of_center_bounds g
  have hp : 0 < (g.length : ℤ) := by
    have h0 : g.toList.length ≠ 0 := fun h => hne (List.length_eq_zero.mp h)
    have hlg : g.toList.length = g.length := rfl
    omega
  have henc := encode_eval (cell_of g).lon (cell_of g).lat (g.length : ℤ)
    hcb.1.le hcb.2.1.le hcb.2.2.1.le hcb.2.2.2.le hp
  have hbl : (bits_of g.toList).length = 5 * g.length := by
    rw [bits_of_length]
    rfl
  have he := ((encode_loop_evens_odds (cell_of g).lon (cell_of g).lat
    ((g.length : ℤ).toNat * 5) (-180, 180) (-90, 90)).1).1
  have ho := ((encode_loop_evens_odds (cell_of g).lon (cell_of g).lat
    ((g.length : ℤ).toNat * 5) (-180, 180) (-90, 90)).1).2
  have hcl : (cell_of g).lon =
      ((Sonnet.refine_interval (evens (bits_of g.toList)) ((-180 : ℚ), 180)).1 +
       (Sonnet.refine_interval (evens (bits_of g.toList)) ((-180 : ℚ), 180)).2) / 2 := rfl
  have hct : (cell_of g).lat =
      ((Sonnet.refine_interval (odds (bits_of g.toList)) ((-90 : ℚ), 90)).1 +
       (Sonnet.refine_interval (odds (bits_of g.toList)) ((-90 : ℚ), 90)).2) / 2 := rfl
  have hcount1 : ((g.length : ℤ).toNat * 5 + 1) / 2 = (evens (bits_of g.toList)).length := by
    rw [(evens_odds_length (bits_of g.toList)).1, hbl]
    omega
  have hcount2 : ((g.length : ℤ).toNat * 5) / 2 = (odds (bits_of g.toList)).length := by
    rw [(evens_odds_length (bits_of g.toList)).2, hbl]
    omega
  have hax1 : axis_encode (cell_of g).lon ((-180 : ℚ), 180)
      ((evens (bits_of g.toList)).length) = evens (bits_of g.toList) := by
    rw [hcl]
    exact axis_encode_center (evens (bits_of g.toList)) (-180) 180 (by norm_num)
  have hax2 : axis_encode (cell_of g).lat ((-90 : ℚ), 90)
      ((odds (bits_of g.toList)).length) = odds (bits_of g.toList) := by
    rw [hct]
    exact axis_encode_center (odds (bits_of g.toList)) (-90) 90 (by norm_num)
  have hev : evens (Sonnet.encode_loop (cell_of g).lon (cell_of g).lat
      (-180, 180) (-90, 90) true ((g.length : ℤ).toNat * 5)) = evens (bits_of g.toList) := by
    rw [he, hcount1, hax1]
  have hod : odds (Sonnet.encode_loop (cell_of g).lon (cell_of g).lat
      (-180, 180) (-90, 90) true ((g.length : ℤ).toNat * 5)) = odds (bits_of g.toList) := by
    rw [ho, hcount2, hax2]
  have hbits := evens_odds_ext _ _ hev hod
  rw [hbits, bits_to_geohash_aux_bits_of g.toList hv] at henc
  exact henc

/-- C9: re-encoding the decoded center of a valid non-empty geohash at the
same precision reproduces the geohash exactly, and consequently position 4
(0-indexed) of `neighbors` is the input itself. -/
theorem C9_reencode_center_reproduces (g : String) (hne : g ≠ "") (hv : ValidGeohash g) :
    ∃ cell, Sonnet.decode g = .ok cell ∧
      Sonnet.encode cell.lon cell.lat (g.length : ℤ) = .ok g ∧
      ∃ ns, Sonnet.neighbors g = .ok ns ∧ ns.get? 4 = some g := by
  have hne' : g.toList ≠ [] := by
    intro h
    apply hne
    cases g with
    | mk d => exact congrArg String.mk h
  obtain ⟨_, ns, c5, hns, _, _, hget, hc5⟩ := neighbors_eval g hv hne'
  have hmain := encode_center_eq g hv hne'
  have hc5g : c5 = g := by
    rw [hmain] at hc5
    exact (Except.ok.inj hc5).symm
  rw [hc5g] at hget
  exact ⟨cell_of g, decode_eval g hv, hmain, ns, hns, hget⟩

/-- C9 witness: decoding "s" and re-encoding its center reproduces "s", and
position 4 of its neighbor grid is "s". -/
theorem C9_reencode_center_reproduces_witness :
    ∃ cell, Sonnet.decode "s" = .ok cell ∧
      Sonnet.encode cell.lon cell.lat (("s" : String).length : ℤ) = .ok "s" ∧
      ∃ ns, Sonnet.neighbors "s" = .ok ns ∧ ns.get? 4 = some "s" :=
  C9_reencode_center_reproduces "s" (by decide) (by decide)

/-- C5 (amended): for every valid non-empty geohash, `sonnet_geo.py`'s
`neighbors` agrees with the spec's row-major order `[NW, N, NE, W, Center,
E, SW, S, SE]` and returns exactly 9 geohashes, each of the input's length. -/
theorem C5_neighbors_row_major (g : String) (hne : g ≠ "") (hv : ValidGeohash g) :
    Sonnet.neighbors g = row_major_neighbor_list g ∧
    ∃ ns, Sonnet.neighbors g = .ok ns ∧ ns.length = 9 ∧ ∀ s ∈ ns, s.length = g.length := by
  have hne' : g.toList ≠ [] := by
    intro h
    apply hne
    cases g with
    | mk d => exact congrArg String.mk h
  obtain ⟨hrow, ns, c5, hns, h9, hl, _, _⟩ := neighbors_eval g hv hne'
  exact ⟨hrow, ns, hns, h9, hl⟩

/-- C5 witness: at "s", sonnet_geo's neighbors equals the row-major list and
has 9 entries of length 1. -/
theorem C5_neighbors_row_major_witness :
    Sonnet.neighbors "s" = row_major_neighbor_list "s" ∧
    ∃ ns, Sonnet.neighbors "s" = .ok ns ∧ ns.length = 9 ∧
      ∀ s ∈ ns, s.length = ("s" : String).length :=
  C5_neighbors_row_major "s" (by decide) (by decide)

/-- C2 (amended): in `sonnet_geo.py` and `codex_geo.py`, a bisection step of
encode whose value equals the current interval midpoint emits bit 1 and
keeps the upper half of the interval. -/
theorem C2_tie_goes_to_upper_half (value low high : ℚ) (h : value = (low + high) / 2) :
    Sonnet.encode_step value low high = (true, (low + high) / 2, high) ∧
    Codex.encode_step value low high = (true, (low + high) / 2, high) := by
  subst h
  constructor <;> simp [Sonnet.encode_step, Codex.encode_step]

/-- C2 witness: the tie at value 0 on the initial longitude interval. -/
theorem C2_tie_witness :
    (0 : ℚ) = ((-180 : ℚ) + 180) / 2 ∧
    Sonnet.encode_step 0 (-180) 180 = (true, ((-180 : ℚ) + 180) / 2, 180) ∧
    Codex.encode_step 0 (-180) 180 = (true, ((-180 : ℚ) + 180) / 2, 180) :=
  ⟨by norm_num, C2_tie_goes_to_upper_half 0 (-180) 180 (by norm_num)⟩

/-- C3 (amended): `sonnet_geo.py`'s encode raises InvalidCoordinateError for
out-of-range latitude (checked first) or longitude, raises
InvalidPrecisionError for non-positive precision, and returns a geohash of
the requested length on every in-range input. -/
theorem C3_encode_validation (lon lat : ℚ) (p : ℤ) :
    ((lat < -90 ∨ 90 < lat) →
      ∃ m, Sonnet.encode lon lat p = .error (.invalidCoordinate m)) ∧
    (-90 ≤ lat → lat ≤ 90 → (lon < -180 ∨ 180 < lon) →
      ∃ m, Sonnet.encode lon lat p = .error (.invalidCoordinate m)) ∧
    (-180 ≤ lon → lon ≤ 180 → -90 ≤ lat → lat ≤ 90 → p ≤ 0 →
      ∃ m, Sonnet.encode lon lat p = .error (.invalidPrecision m)) ∧
    (-180 ≤ lon → lon ≤ 180 → -90 ≤ lat → lat ≤ 90 → 0 < p →
      ∃ s, Sonnet.encode lon lat p = .ok s ∧ s.length = p.toNat) := by
  refine ⟨?_, ?_, ?_, ?_⟩
  · intro h
    have c1 : ¬ (Sonnet.LAT_RANGE.1 ≤ lat ∧ lat ≤ Sonnet.LAT_RANGE.2) := by
      rw [show Sonnet.LAT_RANGE = ((-90 : ℚ), 90) from rfl]
      rintro ⟨a, b⟩
      rcases h with h | h <;> simp at a b <;> linarith
    exact ⟨_, by rw [Sonnet.encode, if_pos c1]⟩
  · intro h3 h4 h
    have c1 : ¬ ¬ (Sonnet.LAT_RANGE.1 ≤ lat ∧ lat ≤ Sonnet.LAT_RANGE.2) :=
      not_not.mpr ⟨h3, h4⟩
    have c2 : ¬ (Sonnet.LON_RANGE.1 ≤ lon ∧ lon ≤ Sonnet.LON_RANGE.2) := by
      rw [show Sonnet.LON_RANGE = ((-180 : ℚ), 180) from rfl]
      rintro ⟨a, b⟩
      rcases h with h | h <;> simp at a b <;> linarith
    exact ⟨_, by rw [Sonnet.encode, if_neg c1, if_pos c2]⟩
  · intro h1 h2 h3 h4 hp
    have c1 : ¬ ¬ (Sonnet.LAT_RANGE.1 ≤ lat ∧ lat ≤ Sonnet.LAT_RANGE.2) :=
      not_not.mpr ⟨h3, h4⟩
    have c2 : ¬ ¬ (Sonnet.LON_RANGE.1 ≤ lon ∧ lon ≤ Sonnet.LON_RANGE.2) :=
      not_not.mpr ⟨h1, h2⟩
    refine ⟨"Precision must be positive, got " ++ toString p, ?_⟩
    rw [Sonnet.encode, if_neg c1, if_neg c2]
    simp only [Sonnet.total_bits, if_pos hp, Bind.bind, Except.bind]
  · intro h1 h2 h3 h4 hp
    exact encode_ok_exists lon lat p h1 h2 h3 h4 hp

/-- C3 witness: the three error modes and the success mode, each at a
concrete input. -/
theorem C3_encode_validation_witness :
    (∃ m, Sonnet.encode 0 (-91) 1 = .error (.invalidCoordinate m)) ∧
    (∃ m, Sonnet.encode 181 0 1 = .error (.invalidCoordinate m)) ∧
    (∃ m, Sonnet.encode 0 0 0 = .error (.invalidPrecision m)) ∧
    (∃ s, Sonnet.encode 0 0 1 = .ok s ∧ s.length = (1 : ℤ).toNat) :=
  ⟨(C3_encode_validation 0 (-91) 1).1 (Or.inl (by norm_num)),
   (C3_encode_validation 181 0 1).2.1 (by norm_num) (by norm_num) (Or.inr (by norm_num)),
   (C3_encode_validation 0 0 0).2.2.1 (by norm_num) (by norm_num) (by norm_num)
     (by norm_num) (le_refl 0),
   (C3_encode_validation 0 0 1).2.2.2 (by norm_num) (by norm_num) (by norm_num)
     (by norm_num) (by norm_num)⟩

theorem codex_wrap_eq_sonnet (x : ℚ) :
    Codex.wrap_longitude x = Sonnet.wrap_longitude x := by
  rw [wrap_longitude_eq]
  rfl

/-- C6: in both `sonnet_geo.py` and `codex_geo.py` (whose wrap functions are
the same arithmetic), candidate longitudes are wrapped into the half-open
range [-180, 180) — with 180 mapping to -180 — and candidate latitudes are
clamped into [-90, 90] with no wraparound (values beyond the poles collapse
onto the poles). -/
theorem C6_wrap_and_clamp (lon lat : ℚ) :
    (-180 ≤ Sonnet.wrap_longitude lon ∧ Sonnet.wrap_longitude lon < 180) ∧
    Sonnet.wrap_longitude 180 = -180 ∧
    Codex.wrap_longitude lon = Sonnet.wrap_longitude lon ∧
    Codex.wrap_longitude 180 = -180 ∧
    (-90 ≤ Sonnet.clamp_latitude lat ∧ Sonnet.clamp_latitude lat ≤ 90) ∧
    Sonnet.clamp_latitude 100 = 90 ∧
    Sonnet.clamp_latitude (-100) = -90 := by
  have h180 : Sonnet.wrap_longitude 180 = -180 := by
    rw [wrap_longitude_eq]
    norm_num [pymod]
  refine ⟨wrap_longitude_bounds lon, h180, codex_wrap_eq_sonnet lon, ?_, clamp_latitude_bounds lat, ?_, ?_⟩
  · rw [codex_wrap_eq_sonnet, h180]
  · norm_num [Sonnet.clamp_latitude, Sonnet.LAT_RANGE]
  · norm_num [Sonnet.clamp_latitude, Sonnet.LAT_RANGE]

/-- C7 (amended): `sonnet_geo.py`'s `to_polygon` returns the bounding-box
corners in the order SW, SE, NE, NW — counter-clockwise (positive shoelace
signed area) starting at the southwest corner — and with the `closed` flag
set appends the SW corner again to close the ring.  (`codex_geo.py` and
`geohash.py` use a different corner order and have no `closed` flag.) -/
theorem C7_polygon_ccw_from_sw (c : Sonnet.DecodedCell)
    (h1 : 0 < c.lon_err) (h2 : 0 < c.lat_err) :
    Sonnet.to_polygon c false =
      [(c.lon - c.lon_err, c.lat - c.lat_err), (c.lon + c.lon_err, c.lat - c.lat_err),
       (c.lon + c.lon_err, c.lat + c.lat_err), (c.lon - c.lon_err, c.lat + c.lat_err)] ∧
    (Sonnet.to_polygon c false).head? = some ((Sonnet.to_bbox c).1, (Sonnet.to_bbox c).2.1) ∧
    0 < shoelace (Sonnet.to_polygon c false) ∧
    Sonnet.to_polygon c true =
      Sonnet.to_polygon c false ++ [(c.lon - c.lon_err, c.lat - c.lat_err)] := by
  refine ⟨rfl, rfl, ?_, rfl⟩
  have hsh : shoelace (Sonnet.to_polygon c false) = 8 * c.lon_err * c.lat_err := by
    show shoelace [(c.lon - c.lon_err, c.lat - c.lat_err), (c.lon + c.lon_err, c.lat - c.lat_err),
      (c.lon + c.lon_err, c.lat + c.lat_err), (c.lon - c.lon_err, c.lat + c.lat_err)] = _
    simp only [shoelace, shoelace_aux, cross2]
    ring
  rw [hsh]
  positivity

/-- C7 witness: the unit cell centered at the origin. -/
theorem C7_polygon_ccw_from_sw_witness :
    Sonnet.to_polygon ⟨0, 0, 1, 1, ""⟩ false =
      [((0 : ℚ) - 1, (0 : ℚ) - 1), ((0 : ℚ) + 1, (0 : ℚ) - 1),
       ((0 : ℚ) + 1, (0 : ℚ) + 1), ((0 : ℚ) - 1, (0 : ℚ) + 1)] ∧
    (Sonnet.to_polygon ⟨0, 0, 1, 1, ""⟩ false).head? =
      some ((Sonnet.to_bbox ⟨0, 0, 1, 1, ""⟩).1, (Sonnet.to_bbox ⟨0, 0, 1, 1, ""⟩).2.1) ∧
    0 < shoelace (Sonnet.to_polygon ⟨0, 0, 1, 1, ""⟩ false) ∧
    Sonnet.to_polygon ⟨0, 0, 1, 1, ""⟩ true =
      Sonnet.to_polygon ⟨0, 0, 1, 1, ""⟩ false ++ [((0 : ℚ) - 1, (0 : ℚ) - 1)] :=
  C7_polygon_ccw_from_sw ⟨0, 0, 1, 1, ""⟩ (by norm_num) (by norm_num)

/-- C8 witness: the bounding box of "9" contains that of "9q". -/
theorem C8_parent_bbox_contains_witness :
    ∃ cp ch, Sonnet.decode (Sonnet.parent "9q") = .ok cp ∧ Sonnet.decode "9q" = .ok ch ∧
      (Sonnet.to_bbox cp).1 ≤ (Sonnet.to_bbox ch).1 ∧
      (Sonnet.to_bbox cp).2.1 ≤ (Sonnet.to_bbox ch).2.1 ∧
      (Sonnet.to_bbox ch).2.2.1 ≤ (Sonnet.to_bbox cp).2.2.1 ∧
      (Sonnet.to_bbox ch).2.2.2 ≤ (Sonnet.to_bbox cp).2.2.2 :=
  C8_parent_bbox_contains "9q" (by decide) (by decide)
